import Mathlib

/-!
# Shallow embedding of the AI job-displacement attribution and nowcasting engines

This file embeds, over exact rational arithmetic, the two numerical subsystems of
the repository:

* the attribution engine (`calculateDisplacementScores` and its helpers
  `calculateDeploymentMaturity`, `DISPLACEMENT_TYPE_MULT`, `ENTERPRISE_MULT`,
  `DISPLACEMENT_CATEGORIES`), which distributes a target total across a roster of
  companies by a multi-factor weighting, and
* the nowcasting engine (`fetchAllData`, `calculateAIDisplacement`, `Counter.tick`),
  which converts periodic labor statistics into a live counter.

JavaScript floating-point numbers are modelled as `ℚ`; dates are milliseconds since
the Unix epoch (`ℤ`); `Math.log10` (applied only to `valuation + 1`) is an explicit
function parameter `lg`, since the claims under study do not depend on its concrete
values.  JavaScript `x || d` defaulting on a numeric field is modelled as
`if x = 0 then d else x`, and on an object-lookup as `Option.getD`, which is exact
for the tables involved (all stored multipliers are nonzero).  `Array.prototype.sort`
with a consistent comparator is a stable sort and is modelled by `List.mergeSort`.
-/

namespace Displacement

/-- Milliseconds per 30-day month, the divisor `1000 * 60 * 60 * 24 * 30`. -/
def msPer30Days : ℕ := 1000 * 60 * 60 * 24 * 30

/-- `new Date('2022-11-30')` (ChatGPT launch), 19326 days after the Unix epoch. -/
def AI_ERA_START : ℤ := 19326 * 86400000

/-- `new Date('2026-02-01')`, 20485 days after the Unix epoch. -/
def CURRENT_DATE : ℤ := 20485 * 86400000

/-- `Math.floor((CURRENT_DATE - AI_ERA_START) / (1000*60*60*24*30))`. -/
def MONTHS_SINCE_AI_ERA : ℕ := (CURRENT_DATE - AI_ERA_START).toNat / msPer30Days

/-- The `DISPLACEMENT_CATEGORIES` table, mapping a category id to its allocation
weight (`none` for an unknown category). -/
def DISPLACEMENT_CATEGORIES : String → Option ℚ
  | "foundation_models" => some 0.22
  | "coding" => some 0.20
  | "customer_service" => some 0.18
  | "administrative" => some 0.12
  | "autonomous" => some 0.10
  | "creative" => some 0.08
  | "sales_marketing" => some 0.06
  | "analytics" => some 0.03
  | "healthcare" => some 0.01
  | _ => none

/-- The `DISPLACEMENT_TYPE_MULT` table (object lookup; `none` for a missing key). -/
def DISPLACEMENT_TYPE_MULT : String → Option ℚ
  | "direct" => some 1.0
  | "augmentation" => some 0.4
  | "infrastructure" => some 0.25
  | _ => none

/-- The `ENTERPRISE_MULT` table (object lookup; `none` for a missing key). -/
def ENTERPRISE_MULT : String → Option ℚ
  | "enterprise" => some 1.0
  | "prosumer" => some 0.6
  | "consumer" => some 0.15
  | _ => none

/-- A roster entry.  Fields not read by the scoring engine (`industry`, `founded`,
`notes`) are omitted.  `productLaunch` is a timestamp in ms, `none` for `null`. -/
structure Company where
  name : String
  valuation : ℚ
  category : String
  productLaunch : Option ℤ
  displacementType : String
  operationalStatus : ℚ
  enterpriseLevel : String
deriving DecidableEq

/-- The four-phase adoption ramp of `calculateDeploymentMaturity`, as a function of
the (floored, hence natural-number) effective months since launch. -/
def adoptionCurve (m : ℕ) : ℚ :=
  if m ≤ 6 then 0.2 + ((m : ℚ) / 6) * 0.3
  else if m ≤ 12 then 0.5 + (((m : ℚ) - 6) / 6) * 0.25
  else if m ≤ 24 then 0.75 + (((m : ℚ) - 12) / 12) * 0.25
  else 1.0

/-- `calculateDeploymentMaturity(company)`: 0 without a launch date or for a launch
after `CURRENT_DATE`; otherwise the adoption curve at the months elapsed since
launch, capped at `MONTHS_SINCE_AI_ERA` for launches predating the AI era. -/
def calculateDeploymentMaturity (c : Company) : ℚ :=
  match c.productLaunch with
  | none => 0
  | some productLaunch =>
    if productLaunch > CURRENT_DATE then 0
    else
      let monthsSinceLaunch : ℕ := (CURRENT_DATE - productLaunch).toNat / msPer30Days
      let effectiveMonths : ℕ :=
        if productLaunch < AI_ERA_START then min monthsSinceLaunch MONTHS_SINCE_AI_ERA
        else monthsSinceLaunch
      adoptionCurve effectiveMonths

/-- `Math.round`: round half toward positive infinity. -/
def jsRound (x : ℚ) : ℤ := ⌊x + 1 / 2⌋

/-- The six per-company factors recorded in the `factors` / `rawFactors` objects. -/
structure Factors where
  categoryAllocation : ℚ
  marketShare : ℚ
  deploymentMaturity : ℚ
  displacementTypeMult : ℚ
  operationalFactor : ℚ
  enterpriseFactor : ℚ
deriving DecidableEq

/-- A company together with its factors and raw score (step 2 of the engine). -/
structure ScoredCompany where
  company : Company
  factors : Factors
  rawScore : ℚ
deriving DecidableEq

/-- One entry of the `normalized` array (step 3).  `percentage` holds the raw share
(the source formats it as a string for display); presentation-only string fields are
omitted. -/
structure NormalizedCompany where
  name : String
  category : String
  valuation : ℚ
  displacement : ℤ
  percentage : ℚ
  rawFactors : Factors
deriving DecidableEq

/-- A ranked result entry (step 5): the normalized entry with its 1-based rank. -/
structure RankedCompany where
  rank : ℕ
  entry : NormalizedCompany
deriving DecidableEq

/-- Step 2 of `calculateDisplacementScores` for one company: `none` (excluded, with
a warning) for an unknown category, otherwise the six factors and their product.
`lg` stands for `Math.log10`; the market-share denominator ranges over all input
companies of the same category (the `byCategory` grouping). -/
def scoreCompany (lg : ℚ → ℚ) (companies : List Company) (c : Company) :
    Option ScoredCompany :=
  match DISPLACEMENT_CATEGORIES c.category with
  | none => none
  | some categoryAllocation =>
    let categoryCompanies := companies.filter (fun x => x.category == c.category)
    let categoryTotalVal := (categoryCompanies.map (fun x => lg (x.valuation + 1))).sum
    let companyVal := lg (c.valuation + 1)
    let marketShare := if categoryTotalVal > 0 then companyVal / categoryTotalVal else 0
    let deploymentMaturity := calculateDeploymentMaturity c
    let displacementTypeMult := (DISPLACEMENT_TYPE_MULT c.displacementType).getD 0.5
    let operationalFactor := if c.operationalStatus = 0 then 1.0 else c.operationalStatus
    let enterpriseFactor := (ENTERPRISE_MULT c.enterpriseLevel).getD 0.6
    let rawScore := categoryAllocation * marketShare * deploymentMaturity
      * displacementTypeMult * operationalFactor * enterpriseFactor
    some ⟨c, ⟨categoryAllocation, marketShare, deploymentMaturity, displacementTypeMult,
      operationalFactor, enterpriseFactor⟩, rawScore⟩

/-- The `scored` array: companies with a known category, scored. -/
def scoredCompanies (lg : ℚ → ℚ) (companies : List Company) : List ScoredCompany :=
  companies.filterMap (scoreCompany lg companies)

/-- The `totalRaw` sum of raw scores. -/
def totalRawScore (lg : ℚ → ℚ) (companies : List Company) : ℚ :=
  ((scoredCompanies lg companies).map (fun s => s.rawScore)).sum

/-- Step 3 for one scored company: normalize and round. -/
def normalizeCompany (totalDisplacement totalRaw : ℚ) (s : ScoredCompany) :
    NormalizedCompany :=
  let percentage := if totalRaw > 0 then s.rawScore / totalRaw else 0
  let displacement := jsRound (totalDisplacement * percentage)
  ⟨s.company.name, s.company.category, s.company.valuation, displacement, percentage,
    s.factors⟩

/-- The `normalized` array (step 3). -/
def normalizedCompanies (lg : ℚ → ℚ) (companies : List Company)
    (totalDisplacement : ℚ) : List NormalizedCompany :=
  (scoredCompanies lg companies).map
    (normalizeCompany totalDisplacement (totalRawScore lg companies))

/-- The descending-by-displacement comparator `(a, b) => b.displacement - a.displacement`
of step 4: `a` may precede `b` exactly when `b.displacement ≤ a.displacement`. -/
def displacementLE (a b : NormalizedCompany) : Bool :=
  decide (b.displacement ≤ a.displacement)

/-- Step 4: the stable descending sort of the normalized entries. -/
def sortedCompanies (lg : ℚ → ℚ) (companies : List Company)
    (totalDisplacement : ℚ) : List NormalizedCompany :=
  (normalizedCompanies lg companies totalDisplacement).mergeSort displacementLE

/-- Step 5: attach ranks `index + 1`. -/
def addRanks (l : List NormalizedCompany) : List RankedCompany :=
  l.enum.map (fun p => ⟨p.1 + 1, p.2⟩)

/-- `calculateDisplacementScores(companies, totalDisplacement)`. -/
def calculateDisplacementScores (lg : ℚ → ℚ) (companies : List Company)
    (totalDisplacement : ℚ) : List RankedCompany :=
  addRanks (sortedCompanies lg companies totalDisplacement)

end Displacement

namespace Nowcast

/-- The six tracked FRED JOLTS series. -/
inductive SeriesKey where
  | total
  | information
  | professional
  | manufacturing
  | finance
  | retail
deriving DecidableEq

/-- The iteration order of `Object.entries(FRED_SERIES)`. -/
def seriesKeys : List SeriesKey :=
  [.total, .information, .professional, .manufacturing, .finance, .retail]

/-- The JavaScript key string of a series. -/
def seriesName : SeriesKey → String
  | .total => "total"
  | .information => "information"
  | .professional => "professional"
  | .manufacturing => "manufacturing"
  | .finance => "finance"
  | .retail => "retail"

/-- One entry of `liveData.fred`: `none` models both `null` and an absent field. -/
structure FredEntry where
  value : Option ℚ
  average : Option ℚ
  date : Option String
  error : Option String
deriving DecidableEq

/-- A successful `fetchFredSeries` result (the unused `history` field is omitted). -/
structure FetchOk where
  latest : ℚ
  average : ℚ
  date : String
deriving DecidableEq

/-- The outcome of `fetchFredSeries` for one series. -/
inductive FetchResult where
  | ok (r : FetchOk)
  | err (msg : String)
deriving DecidableEq

/-- The `liveData.fred` store: the per-series entries and the refresh error list. -/
structure FredState where
  entries : SeriesKey → FredEntry
  errors : List String

/-- An `{low, mid, high}` exposure-rate triple. -/
structure Exposure where
  low : ℚ
  mid : ℚ
  high : ℚ
deriving DecidableEq

/-- The `AI_EXPOSURE_MODEL` table (rationale strings omitted). -/
def AI_EXPOSURE_MODEL : String → Option Exposure
  | "information" => some ⟨0.12, 0.18, 0.25⟩
  | "professional" => some ⟨0.08, 0.12, 0.18⟩
  | "finance" => some ⟨0.10, 0.15, 0.20⟩
  | "manufacturing" => some ⟨0.05, 0.08, 0.12⟩
  | "retail" => some ⟨0.04, 0.06, 0.10⟩
  | "other" => some ⟨0.03, 0.05, 0.08⟩
  | _ => none

/-- The `liveData.calculated` rate fields.  The per-cent rates are stored as raw
rationals (the source formats them with `toFixed` for display). -/
structure Calculated where
  totalMonthly : ℤ
  aiLow : ℤ
  aiMid : ℤ
  aiHigh : ℤ
  aiRateLow : ℚ
  aiRateMid : ℚ
  aiRateHigh : ℚ
  perDayLow : ℤ
  perDayMid : ℤ
  perDayHigh : ℤ
  perSecond : ℚ
  historicalLow : ℤ
  historicalMid : ℤ
  historicalHigh : ℤ
  daysSinceStart : ℤ
  startDate : String
deriving DecidableEq

/-- The mutable `liveData` store (the presentation-only `fetchedAt` timestamp is
omitted). -/
structure LiveData where
  fred : FredState
  calculated : Calculated

/-- `new Date('2023-01-01')` (19358 days after the Unix epoch), the counter epoch. -/
def START_DATE : ℤ := 19358 * 86400000

/-- The accumulator of the per-industry attribution loop. -/
structure ExposureAcc where
  aiLow : ℚ
  aiMid : ℚ
  aiHigh : ℚ
  knownTotal : ℚ
deriving DecidableEq

/-- The five industries iterated by `calculateAIDisplacement`. -/
def industries : List SeriesKey :=
  [.information, .professional, .finance, .manufacturing, .retail]

/-- `calculateAIDisplacement()`: recompute `liveData.calculated` from the fetched
series.  `fred.total?.value || 0` is `Option.getD 0`; a zero or unavailable total
returns early, leaving `calculated` untouched.  The JavaScript truthiness test
`if (data?.value)` skips both `null` and `0`.  `now` is the wall-clock time in ms
(`new Date()`).  The table lookups always succeed for the keys iterated, so the
`getD` default is never used. -/
def calculateAIDisplacement (now : ℤ) (live : LiveData) : LiveData :=
  let totalMonthly := (live.fred.entries SeriesKey.total).value.getD 0
  if totalMonthly = 0 then live
  else
    let acc := industries.foldl
      (fun acc industry =>
        match (live.fred.entries industry).value with
        | some v =>
          if v = 0 then acc
          else
            let model := (AI_EXPOSURE_MODEL (seriesName industry)).getD ⟨0, 0, 0⟩
            ⟨acc.aiLow + v * model.low, acc.aiMid + v * model.mid,
              acc.aiHigh + v * model.high, acc.knownTotal + v⟩
        | none => acc)
      (⟨0, 0, 0, 0⟩ : ExposureAcc)
    let otherSectors := max 0 (totalMonthly - acc.knownTotal)
    let otherModel := (AI_EXPOSURE_MODEL "other").getD ⟨0, 0, 0⟩
    let aiLow := acc.aiLow + otherSectors * otherModel.low
    let aiMid := acc.aiMid + otherSectors * otherModel.mid
    let aiHigh := acc.aiHigh + otherSectors * otherModel.high
    let perDayMid := aiMid / 30
    let perSecond := perDayMid / 86400
    let daysSinceStart := Int.fdiv (now - START_DATE) 86400000
    let historicalTotal := ⌊(daysSinceStart : ℚ) * perDayMid⌋
    { live with
      calculated :=
        { totalMonthly := Displacement.jsRound totalMonthly
          aiLow := Displacement.jsRound aiLow
          aiMid := Displacement.jsRound aiMid
          aiHigh := Displacement.jsRound aiHigh
          aiRateLow := aiLow / totalMonthly * 100
          aiRateMid := aiMid / totalMonthly * 100
          aiRateHigh := aiHigh / totalMonthly * 100
          perDayLow := Displacement.jsRound (aiLow / 30)
          perDayMid := Displacement.jsRound perDayMid
          perDayHigh := Displacement.jsRound (aiHigh / 30)
          perSecond := perSecond
          historicalLow := ⌊(daysSinceStart : ℚ) * aiLow / 30⌋
          historicalMid := historicalTotal
          historicalHigh := ⌊(daysSinceStart : ℚ) * aiHigh / 30⌋
          daysSinceStart := daysSinceStart
          startDate := "2023-01-01" } }

/-- The per-series store update of `fetchAllData`: on success the entry is replaced
by the fetched values (no `error` field); on failure it is replaced by
`{ value: null, date: null, error }` (no `average` field). -/
def applyFetchResult : FetchResult → FredEntry
  | .ok r => ⟨some r.latest, some r.average, some r.date, none⟩
  | .err m => ⟨none, none, none, some m⟩

/-- `fetchAllData()`: update every series entry from its fetch result, record the
error list, recompute the rates, and report whether the refresh was error-free.
The per-series fetch outcomes are passed in as `results`. -/
def fetchAllData (now : ℤ) (live : LiveData) (results : SeriesKey → FetchResult) :
    LiveData × Bool :=
  let errs := seriesKeys.filterMap fun k =>
    match results k with
    | .err m => some (seriesName k ++ ": " ++ m)
    | .ok _ => none
  let fred : FredState := ⟨fun k => applyFetchResult (results k), errs⟩
  let live := calculateAIDisplacement now { live with fred := fred }
  (live, errs.isEmpty)

/-- The mutable state of the live `Counter` (`lastTick` is modelled by passing the
elapsed seconds to `tick` directly). -/
structure CounterState where
  value : ℚ
  fraction : ℚ
  initialized : Bool
deriving DecidableEq

/-- `Counter.initialize()`: seed the counter from the historical total when one is
available. -/
def Counter.seed (historicalMid : ℤ) (st : CounterState) : CounterState :=
  if historicalMid > 0 then { st with value := (historicalMid : ℚ), initialized := true }
  else st

/-- The `while (this.fraction >= 1) { this.value++; this.fraction--; }` loop. -/
def drainLoop (value fraction : ℚ) : ℚ × ℚ :=
  if h : 1 ≤ fraction then drainLoop (value + 1) (fraction - 1) else (value, fraction)
termination_by ⌊fraction⌋.toNat
decreasing_by
  have h1 : (1 : ℤ) ≤ ⌊fraction⌋ := by
    rw [Int.le_floor]
    exact_mod_cast h
  have h2 : ⌊fraction - 1⌋ = ⌊fraction⌋ - 1 := by
    simp [Int.floor_sub_int fraction 1]
  simp only [h2]
  omega

/-- `Counter.tick()`: possibly seed the counter, then advance the fractional
remainder by `rate * elapsed * jitter` and carry whole units into `value`.
`historicalMid` is `liveData.calculated.historicalMid`, `rate` is
`liveData.calculated.perSecond || 0`, `elapsed` the elapsed seconds, and `jitter`
the random factor `1 + (Math.random() - 0.5) * 0.2`. -/
def Counter.tick (historicalMid : ℤ) (rate elapsed jitter : ℚ)
    (st : CounterState) : CounterState :=
  let st1 :=
    if st.initialized = false ∧ historicalMid > 0 then Counter.seed historicalMid st
    else st
  if rate > 0 then
    let p := drainLoop st1.value (st1.fraction + rate * elapsed * jitter)
    { st1 with value := p.1, fraction := p.2 }
  else st1

end Nowcast

namespace Displacement

/-- A stand-in for `Math.log10` that is exact on the points at which the concrete
rosters below evaluate it: every company used has `valuation = 9`, and
`log10(9 + 1) = 1`. -/
def lgOne : ℚ → ℚ := fun _ => 1

/-- A company with `operationalStatus = 0` but a launched product: the roster
comments (`0% effectiveness`, `No product = no displacement`) require it to
receive nothing. -/
def cZeroOp : Company :=
  ⟨"ZeroOpCo", 9, "coding", some AI_ERA_START, "direct", 0, "enterprise"⟩

/-- A fully operational company used as a neutral concrete roster entry. -/
def cFull : Company :=
  ⟨"FullCo", 9, "coding", some AI_ERA_START, "direct", 1, "enterprise"⟩

/-- A company whose `displacementType` and `enterpriseLevel` are outside the fixed
tables. -/
def cUnknownType : Company :=
  ⟨"NovelCo", 9, "coding", some AI_ERA_START, "agentic", 1, "smb"⟩

/-- A company with no launched product. -/
def cNoLaunch : Company :=
  ⟨"LabCo", 9, "coding", none, "direct", 1, "enterprise"⟩

/-- A company launched `k` thirty-day months before the current date. -/
def cLaunch (k : ℕ) : Company :=
  ⟨"AgedCo", 9, "coding", some (CURRENT_DATE - (k : ℤ) * (msPer30Days : ℤ)),
    "direct", 1, "enterprise"⟩

end Displacement

namespace Nowcast

/-- A `calculated` record with visibly nonzero rate fields, used to observe that a
failed recompute leaves previous values untouched. -/
def calcNonzero : Calculated :=
  ⟨1500000, 100000, 150000, 200000, 5, 10, 15, 3000, 5000, 7000, 0.05, 110000,
    160000, 210000, 1100, "2023-01-01"⟩

/-- A live store holding a good value of 100 for every series. -/
def liveGood : LiveData :=
  ⟨⟨fun _ => ⟨some 100, some 100, some "2025-11-01", none⟩, []⟩, calcNonzero⟩

/-- A live store with no total value available. -/
def liveNoTotal : LiveData :=
  ⟨⟨fun _ => ⟨none, none, none, some "HTTP 500"⟩, ["total: HTTP 500"]⟩, calcNonzero⟩

/-- Fetch results in which only the `total` series fails. -/
def resultsFailTotal : SeriesKey → FetchResult := fun k =>
  match k with
  | .total => .err "HTTP 500"
  | _ => .ok ⟨100, 100, "2025-11-01"⟩

end Nowcast

namespace Displacement

/-- `Math.round` differs from its argument by at most one half. -/
theorem jsRound_sub_abs_le (x : ℚ) : |(jsRound x : ℚ) - x| ≤ 1 / 2 := by
  rw [abs_le]
  constructor
  · have h := Int.lt_floor_add_one (x + 1 / 2)
    unfold jsRound
    linarith
  · have h := Int.floor_le (x + 1 / 2)
    unfold jsRound
    linarith

/-- Summed rounding error: rounding each share of `T` keeps the total within half a
unit per share. -/
theorem roundSum_abs_le (T : ℚ) (l : List ℚ) :
    |((l.map fun q => (jsRound (T * q) : ℚ)).sum - T * l.sum)| ≤ l.length * (1 / 2) := by
  induction l with
  | nil => simp
  | cons q l ih =>
    have h := jsRound_sub_abs_le (T * q)
    have habs := abs_add ((jsRound (T * q) : ℚ) - T * q)
      ((l.map fun q => (jsRound (T * q) : ℚ)).sum - T * l.sum)
    simp only [List.map_cons, List.sum_cons, List.length_cons] at *
    have he : (jsRound (T * q) : ℚ) + (l.map fun q => (jsRound (T * q) : ℚ)).sum
        - T * (q + l.sum)
        = ((jsRound (T * q) : ℚ) - T * q)
          + (((l.map fun q => (jsRound (T * q) : ℚ)).sum) - T * l.sum) := by ring
    rw [he]
    calc |((jsRound (T * q) : ℚ) - T * q)
          + (((l.map fun q => (jsRound (T * q) : ℚ)).sum) - T * l.sum)|
        ≤ |(jsRound (T * q) : ℚ) - T * q|
          + |(((l.map fun q => (jsRound (T * q) : ℚ)).sum) - T * l.sum)| := habs
      _ ≤ 1 / 2 + l.length * (1 / 2) := by linarith
      _ = (l.length + 1) * (1 / 2) := by ring
      _ = ((l.length + 1 : ℕ) : ℚ) * (1 / 2) := by push_cast; ring

/-- The adoption curve never steps down from one month to the next. -/
theorem adoptionCurve_le_succ (m : ℕ) : adoptionCurve m ≤ adoptionCurve (m + 1) := by
  unfold adoptionCurve
  rcases le_or_lt (m + 1) 6 with h6 | h6
  · have hm : m ≤ 6 := by omega
    rw [if_pos hm, if_pos h6]
    have : (m : ℚ) ≤ ((m + 1 : ℕ) : ℚ) := by push_cast; linarith
    push_cast
    linarith
  · rcases le_or_lt (m + 1) 12 with h12 | h12
    · have hm1 : ¬ (m + 1 ≤ 6) := by omega
      rw [if_neg hm1, if_pos h12]
      rcases le_or_lt m 6 with hm | hm
      · have hm6 : m = 6 := by omega
        subst hm6
        rw [if_pos le_rfl]
        push_cast
        norm_num
      · have hm' : ¬ (m ≤ 6) := by omega
        have hm12 : m ≤ 12 := by omega
        rw [if_neg hm', if_pos hm12]
        push_cast
        linarith
    · rcases le_or_lt (m + 1) 24 with h24 | h24
      · have hm1 : ¬ (m + 1 ≤ 6) := by omega
        have hm1' : ¬ (m + 1 ≤ 12) := by omega
        rw [if_neg hm1, if_neg hm1', if_pos h24]
        rcases le_or_lt m 12 with hm | hm
        · have hm6 : ¬ (m ≤ 6) := by omega
          have hm12 : m = 12 := by omega
          subst hm12
          rw [if_neg hm6, if_pos le_rfl]
          push_cast
          norm_num
        · have hm6 : ¬ (m ≤ 6) := by omega
          have hm12 : ¬ (m ≤ 12) := by omega
          have hm24 : m ≤ 24 := by omega
          rw [if_neg hm6, if_neg hm12, if_pos hm24]
          push_cast
          linarith
      · have hm1 : ¬ (m + 1 ≤ 6) := by omega
        have hm1' : ¬ (m + 1 ≤ 12) := by omega
        have hm1'' : ¬ (m + 1 ≤ 24) := by omega
        rw [if_neg hm1, if_neg hm1', if_neg hm1'']
        rcases le_or_lt m 24 with hm | hm
        · have hm6 : ¬ (m ≤ 6) := by omega
          have hm12 : ¬ (m ≤ 12) := by omega
          have hm24 : m = 24 := by omega
          subst hm24
          rw [if_neg hm6, if_neg hm12, if_pos le_rfl]
          push_cast
          norm_num
        · have hm6 : ¬ (m ≤ 6) := by omega
          have hm12 : ¬ (m ≤ 12) := by omega
          have hm24 : ¬ (m ≤ 24) := by omega
          rw [if_neg hm6, if_neg hm12, if_neg hm24]

/-- The adoption curve is monotone in the effective months. -/
theorem adoptionCurve_mono {m n : ℕ} (h : m ≤ n) : adoptionCurve m ≤ adoptionCurve n :=
  monotone_nat_of_le_succ adoptionCurve_le_succ h

/-- Deployment maturity is monotone in the elapsed time since launch: a launch that
is not later yields a maturity that is not smaller. -/
theorem calculateDeploymentMaturity_mono (c1 c2 : Company) (pl1 pl2 : ℤ)
    (h1 : c1.productLaunch = some pl1) (h2 : c2.productLaunch = some pl2)
    (hle : pl2 ≤ pl1) (hnow : pl1 ≤ CURRENT_DATE) :
    calculateDeploymentMaturity c1 ≤ calculateDeploymentMaturity c2 := by
  have hnow2 : pl2 ≤ CURRENT_DATE := le_trans hle hnow
  unfold calculateDeploymentMaturity
  rw [h1, h2]
  dsimp only
  rw [if_neg (not_lt.mpr hnow), if_neg (not_lt.mpr hnow2)]
  have ht : (CURRENT_DATE - pl1).toNat ≤ (CURRENT_DATE - pl2).toNat :=
    Int.toNat_le_toNat (by omega)
  have hdiv : (CURRENT_DATE - pl1).toNat / msPer30Days
      ≤ (CURRENT_DATE - pl2).toNat / msPer30Days :=
    Nat.div_le_div_right ht
  by_cases hA1 : pl1 < AI_ERA_START
  · have hA2 : pl2 < AI_ERA_START := lt_of_le_of_lt hle hA1
    rw [if_pos hA1, if_pos hA2]
    exact adoptionCurve_mono (min_le_min hdiv le_rfl)
  · by_cases hA2 : pl2 < AI_ERA_START
    · rw [if_neg hA1, if_pos hA2]
      apply adoptionCurve_mono
      apply le_min hdiv
      have hcap : (CURRENT_DATE - pl1).toNat ≤ (CURRENT_DATE - AI_ERA_START).toNat :=
        Int.toNat_le_toNat (by omega)
      exact Nat.div_le_div_right hcap
    · rw [if_neg hA1, if_neg hA2]
      exact adoptionCurve_mono hdiv

/-- The entries of the ranked result are exactly the sorted entries. -/
theorem addRanks_map_entry (l : List NormalizedCompany) :
    (addRanks l).map (fun r => r.entry) = l := by
  unfold addRanks
  rw [List.map_map]
  exact List.enum_map_snd l

/-- The ranks of the ranked result are `1, 2, …, length`. -/
theorem addRanks_map_rank (l : List NormalizedCompany) :
    (addRanks l).map (fun r => r.rank) = List.range' 1 l.length := by
  unfold addRanks
  rw [List.map_map]
  have h1 : ((fun r : RankedCompany => r.rank) ∘ fun p : ℕ × NormalizedCompany =>
      (⟨p.1 + 1, p.2⟩ : RankedCompany)) = (fun n : ℕ => n + 1) ∘ Prod.fst := rfl
  rw [h1, ← List.map_map, List.enum_map_fst, List.range'_eq_map_range]
  apply List.map_congr_left
  intro a _
  exact Nat.add_comm a 1

/-- Every sorted entry appears in the ranked result. -/
theorem mem_addRanks {l : List NormalizedCompany} {x : NormalizedCompany}
    (h : x ∈ l) : ∃ r ∈ addRanks l, r.entry = x := by
  obtain ⟨n, hn⟩ := List.mem_iff_get.mp h
  refine ⟨⟨(n : ℕ) + 1, x⟩, ?_, rfl⟩
  unfold addRanks
  apply List.mem_map.mpr
  refine ⟨((n : ℕ), x), ?_, rfl⟩
  have hlen : (n : ℕ) < l.enum.length := by
    rw [List.enum_length]
    exact n.isLt
  have hmem := List.getElem_mem hlen
  rw [List.getElem_enum] at hmem
  have hx : l[(n : ℕ)] = x := by
    rw [← hn]
    simp [List.get_eq_getElem]
  rw [hx] at hmem
  exact hmem

/-- Stability of `mergeSort` restated on filters: the elements satisfying a
predicate on which the comparison always holds keep their input order. -/
theorem filter_mergeSort_eq {α : Type} (le : α → α → Bool) (p : α → Bool)
    (htrans : ∀ a b c, le a b → le b c → le a c)
    (htotal : ∀ a b, le a b || le b a)
    (hp : ∀ a b, p a → p b → le a b) (l : List α) :
    (l.mergeSort le).filter p = l.filter p := by
  have hpw : (l.filter p).Pairwise (fun a b => le a b) := by
    apply List.pairwise_of_forall_mem_list
    intro a ha b hb
    exact hp a b (List.of_mem_filter ha) (List.of_mem_filter hb)
  have hsub : List.Sublist (l.filter p) l := List.filter_sublist l
  have h1 : List.Sublist (l.filter p) (l.mergeSort le) :=
    List.sublist_mergeSort htrans htotal hpw hsub
  have h2 := h1.filter p
  rw [List.filter_filter] at h2
  simp only [Bool.and_self] at h2
  have h3 : ((l.mergeSort le).filter p).length = (l.filter p).length :=
    ((List.mergeSort_perm l le).filter p).length_eq
  exact (h2.eq_of_length h3.symm).symm

/-- `filterMap` keeps exactly the elements on which the function succeeds. -/
theorem length_filterMap_eq_length_filter {α β : Type} (f : α → Option β) (l : List α) :
    (l.filterMap f).length = (l.filter (fun x => (f x).isSome)).length := by
  induction l with
  | nil => simp
  | cons a l ih =>
    cases h : f a with
    | none => simp [List.filterMap_cons, List.filter_cons, h, ih]
    | some b => simp [List.filterMap_cons, List.filter_cons, h, ih]

/-- A company is scored exactly when its category is known. -/
theorem scoreCompany_isSome (lg : ℚ → ℚ) (companies : List Company) (c : Company) :
    (scoreCompany lg companies c).isSome = (DISPLACEMENT_CATEGORIES c.category).isSome := by
  unfold scoreCompany
  cases DISPLACEMENT_CATEGORIES c.category <;> rfl

/-- The result has one entry per known-category company. -/
theorem length_calculateDisplacementScores (lg : ℚ → ℚ) (companies : List Company)
    (T : ℚ) :
    (calculateDisplacementScores lg companies T).length
      = (companies.filter (fun c => (DISPLACEMENT_CATEGORIES c.category).isSome)).length := by
  unfold calculateDisplacementScores addRanks sortedCompanies normalizedCompanies
    scoredCompanies
  rw [List.length_map, List.enum_length, List.length_mergeSort, List.length_map,
    length_filterMap_eq_length_filter]
  congr 1
  apply List.filter_congr
  intro x _
  exact scoreCompany_isSome lg companies x

/-- The result and the scored list have the same length. -/
theorem length_calculateDisplacementScores_eq_scored (lg : ℚ → ℚ)
    (companies : List Company) (T : ℚ) :
    (calculateDisplacementScores lg companies T).length
      = (scoredCompanies lg companies).length := by
  unfold calculateDisplacementScores addRanks sortedCompanies normalizedCompanies
  rw [List.length_map, List.enum_length, List.length_mergeSort, List.length_map]

/-- Mapping a function over the result entries is a permutation of mapping it over
the normalized list (ranking and sorting only reorder). -/
theorem perm_map_entry (lg : ℚ → ℚ) (companies : List Company) (T : ℚ)
    {β : Type} (f : NormalizedCompany → β) :
    List.Perm ((calculateDisplacementScores lg companies T).map (fun r => f r.entry))
      ((normalizedCompanies lg companies T).map f) := by
  unfold calculateDisplacementScores
  have h1 : (addRanks (sortedCompanies lg companies T)).map (fun r => f r.entry)
      = (sortedCompanies lg companies T).map f := by
    rw [show (fun r : RankedCompany => f r.entry)
        = f ∘ (fun r : RankedCompany => r.entry) from rfl,
      ← List.map_map, addRanks_map_entry]
  rw [h1]
  unfold sortedCompanies
  exact (List.mergeSort_perm _ _).map f

/-- Dividing each element divides the sum. -/
theorem list_sum_map_div (l : List ℚ) (R : ℚ) :
    (l.map (fun x => x / R)).sum = l.sum / R := by
  induction l with
  | nil => simp
  | cons a l ih => simp [ih, add_div]

/-- Evaluation of the engine on a one-company roster. -/
theorem calculateDisplacementScores_singleton (lg : ℚ → ℚ) (c : Company) (T : ℚ)
    (s : ScoredCompany) (h : scoreCompany lg [c] c = some s) :
    calculateDisplacementScores lg [c] T = [⟨1, normalizeCompany T s.rawScore s⟩] := by
  unfold calculateDisplacementScores addRanks sortedCompanies normalizedCompanies
    totalRawScore scoredCompanies
  simp [List.filterMap_cons, h, List.mergeSort_singleton, List.enum, List.enumFrom]

/-- 38 whole 30-day months separate the AI-era start from the current date. -/
theorem months_at_era : (CURRENT_DATE - AI_ERA_START).toNat / msPer30Days = 38 := by
  decide

/-- A product launched exactly at the AI-era start is 38 effective months old and
fully mature. -/
theorem calculateDeploymentMaturity_eraStart (c : Company)
    (h : c.productLaunch = some AI_ERA_START) : calculateDeploymentMaturity c = 1 := by
  unfold calculateDeploymentMaturity
  rw [h]
  dsimp only
  rw [if_neg (by decide : ¬ AI_ERA_START > CURRENT_DATE), if_neg (lt_irrefl AI_ERA_START),
    months_at_era]
  norm_num [adoptionCurve]

/-- Scoring the zero-operational-status company: the `|| 1.0` default turns the
factor into `1.0`, so the raw score is the full `0.2`. -/
theorem scoreCompany_cZeroOp :
    scoreCompany lgOne [cZeroOp] cZeroOp
      = some ⟨cZeroOp, ⟨1 / 5, 1, 1, 1, 1, 1⟩, 1 / 5⟩ := by
  norm_num [scoreCompany, cZeroOp, lgOne, DISPLACEMENT_CATEGORIES,
    DISPLACEMENT_TYPE_MULT, ENTERPRISE_MULT, List.filter_cons]
  exact calculateDeploymentMaturity_eraStart _ rfl

/-- C1.  The claim fails on the code and the code contradicts its own roster
comments: passing a single entity with `operationalFactor = 0` (category `coding`,
launched at the AI-era start, `direct`, `enterprise`) and target total 1000, the
engine attributes the full 1000 to it, because `operationalStatus || 1.0`
treats the value `0` as absent and substitutes the default `1.0`. -/
theorem claimC1_operational_zero_attributed :
    cZeroOp.operationalStatus = 0 ∧
    (calculateDisplacementScores lgOne [cZeroOp] 1000).map
      (fun r => r.entry.displacement) = [1000] := by
  refine ⟨rfl, ?_⟩
  rw [calculateDisplacementScores_singleton lgOne cZeroOp 1000 _ scoreCompany_cZeroOp]
  norm_num [normalizeCompany, jsRound]

end Displacement

namespace Nowcast

/-- The carry loop adds a natural number to the value and leaves a remainder below
one, nonnegative whenever the input fraction was nonnegative. -/
theorem drainLoop_spec (v f : ℚ) :
    (∃ k : ℕ, (drainLoop v f).1 = v + k) ∧ (drainLoop v f).2 < 1
      ∧ (0 ≤ f → 0 ≤ (drainLoop v f).2) := by
  induction v, f using drainLoop.induct with
  | case1 v f h ih =>
    rw [drainLoop, dif_pos h]
    obtain ⟨⟨k, hk⟩, hlt, hnn⟩ := ih
    refine ⟨⟨k + 1, ?_⟩, hlt, fun _ => hnn (by linarith)⟩
    rw [hk]
    push_cast
    ring
  | case2 v f h =>
    rw [drainLoop, dif_neg h]
    exact ⟨⟨0, by simp⟩, by simpa using not_le.mp h, fun hf => hf⟩

end Nowcast

namespace Displacement

/-- A product launched `k ≤ 38` thirty-day months ago postdates the AI era and has
exactly `k` effective months. -/
theorem calculateDeploymentMaturity_cLaunch (k : ℕ) (hk : k ≤ 38) :
    calculateDeploymentMaturity (cLaunch k) = adoptionCurve k := by
  unfold calculateDeploymentMaturity cLaunch
  dsimp only
  have hms : (0 : ℤ) ≤ (k : ℤ) * (msPer30Days : ℤ) := by positivity
  have h1 : ¬ (CURRENT_DATE - (k : ℤ) * (msPer30Days : ℤ) > CURRENT_DATE) := by
    simp only [not_lt]
    linarith
  have h2 : ¬ (CURRENT_DATE - (k : ℤ) * (msPer30Days : ℤ) < AI_ERA_START) := by
    simp only [not_lt]
    have hk38 : (k : ℤ) ≤ 38 := by exact_mod_cast hk
    have hbound : (k : ℤ) * (msPer30Days : ℤ) ≤ 38 * (msPer30Days : ℤ) :=
      mul_le_mul_of_nonneg_right hk38 (by norm_num [msPer30Days])
    norm_num [msPer30Days, CURRENT_DATE, AI_ERA_START] at hbound ⊢
    linarith
  rw [if_neg h1, if_neg h2]
  have h3 : (CURRENT_DATE - (CURRENT_DATE - (k : ℤ) * (msPer30Days : ℤ))).toNat
      = k * msPer30Days := by
    have h4 : CURRENT_DATE - (CURRENT_DATE - (k : ℤ) * (msPer30Days : ℤ))
        = ((k * msPer30Days : ℕ) : ℤ) := by
      push_cast
      ring
    rw [h4, Int.toNat_natCast]
  rw [h3, Nat.mul_div_cancel k (by norm_num [msPer30Days])]

/-- C5.  The deployment-maturity function yields exactly 0.2, 0.5, 0.75 and 1.0 at
0, 6, 12 and 24 effective months after launch, and for launches not after the
current date it is monotonically non-decreasing in the elapsed time (an earlier
launch never yields a smaller maturity). -/
theorem claimC5_maturity_boundaries_monotone :
    (calculateDeploymentMaturity (cLaunch 0) = 0.2
      ∧ calculateDeploymentMaturity (cLaunch 6) = 0.5
      ∧ calculateDeploymentMaturity (cLaunch 12) = 0.75
      ∧ calculateDeploymentMaturity (cLaunch 24) = 1.0)
    ∧ ∀ (c1 c2 : Company) (pl1 pl2 : ℤ),
        c1.productLaunch = some pl1 → c2.productLaunch = some pl2 →
        pl2 ≤ pl1 → pl1 ≤ CURRENT_DATE →
        calculateDeploymentMaturity c1 ≤ calculateDeploymentMaturity c2 := by
  constructor
  · refine ⟨?_, ?_, ?_, ?_⟩ <;>
    · rw [calculateDeploymentMaturity_cLaunch _ (by norm_num)]
      norm_num [adoptionCurve]
  · intro c1 c2 pl1 pl2 h1 h2 hle hnow
    exact calculateDeploymentMaturity_mono c1 c2 pl1 pl2 h1 h2 hle hnow

/-- C5 witness: the monotonicity part applied to launches 6 and 12 months old. -/
theorem claimC5_witness :
    calculateDeploymentMaturity (cLaunch 6) ≤ calculateDeploymentMaturity (cLaunch 12) :=
  claimC5_maturity_boundaries_monotone.2 (cLaunch 6) (cLaunch 12) _ _ rfl rfl
    (by decide) (by decide)

end Displacement

namespace Nowcast

/-- Seeding keeps the fractional remainder and the value when no data is
available, and otherwise raises a zero value to the positive historical total. -/
theorem seed_fraction (historicalMid : ℤ) (st : CounterState) :
    (Counter.seed historicalMid st).fraction = st.fraction := by
  unfold Counter.seed
  split <;> rfl

/-- C4.  For every tick with non-negative rate and elapsed time (and the bounded
jitter of the source), starting from a state whose fraction lies in `[0,1)`, whose
value is a non-negative integer, and whose value is still the initial 0 if the
counter is not yet seeded: the returned value is again a non-negative integer and
never smaller, and the fraction is again in `[0,1)`. -/
theorem claimC4_tick_invariant (historicalMid : ℤ) (rate elapsed jitter : ℚ)
    (st : CounterState)
    (hrate : 0 ≤ rate) (helapsed : 0 ≤ elapsed)
    (hjl : 0.9 ≤ jitter) (hju : jitter ≤ 1.1)
    (hf0 : 0 ≤ st.fraction) (hf1 : st.fraction < 1)
    (hint : ∃ n : ℕ, st.value = n)
    (hinit : st.initialized = false → st.value = 0) :
    (∃ n : ℕ, (Counter.tick historicalMid rate elapsed jitter st).value = n)
    ∧ st.value ≤ (Counter.tick historicalMid rate elapsed jitter st).value
    ∧ 0 ≤ (Counter.tick historicalMid rate elapsed jitter st).fraction
    ∧ (Counter.tick historicalMid rate elapsed jitter st).fraction < 1 := by
  unfold Counter.tick
  have hjpos : (0 : ℚ) ≤ jitter := by linarith
  by_cases hcond : st.initialized = false ∧ historicalMid > 0
  · rw [if_pos hcond]
    unfold Counter.seed
    rw [if_pos hcond.2]
    have hv0 : st.value = 0 := hinit hcond.1
    have hmpos : (0 : ℚ) < (historicalMid : ℚ) := by exact_mod_cast hcond.2
    by_cases hr : rate > 0
    · rw [if_pos hr]
      dsimp only
      have hdelta : 0 ≤ rate * elapsed * jitter :=
        mul_nonneg (mul_nonneg hrate helapsed) hjpos
      obtain ⟨⟨k, hk⟩, hlt, hnn⟩ :=
        drainLoop_spec (historicalMid : ℚ) (st.fraction + rate * elapsed * jitter)
      have hc : ((historicalMid.toNat : ℕ) : ℚ) = (historicalMid : ℚ) := by
        exact_mod_cast Int.toNat_of_nonneg (le_of_lt hcond.2)
      refine ⟨⟨historicalMid.toNat + k, ?_⟩, ?_, ?_, hlt⟩
      · rw [hk]
        push_cast
        rw [hc]
      · rw [hk, hv0]
        positivity
      · exact hnn (by linarith)
    · rw [if_neg hr]
      dsimp only
      have hc : ((historicalMid.toNat : ℕ) : ℚ) = (historicalMid : ℚ) := by
        exact_mod_cast Int.toNat_of_nonneg (le_of_lt hcond.2)
      refine ⟨⟨historicalMid.toNat, ?_⟩, ?_, hf0, hf1⟩
      · exact hc.symm
      · rw [hv0]
        exact le_of_lt hmpos
  · rw [if_neg hcond]
    by_cases hr : rate > 0
    · rw [if_pos hr]
      dsimp only
      have hdelta : 0 ≤ rate * elapsed * jitter :=
        mul_nonneg (mul_nonneg hrate helapsed) hjpos
      obtain ⟨⟨k, hk⟩, hlt, hnn⟩ :=
        drainLoop_spec st.value (st.fraction + rate * elapsed * jitter)
      obtain ⟨n, hn⟩ := hint
      refine ⟨⟨n + k, ?_⟩, ?_, ?_, hlt⟩
      · rw [hk, hn]
        push_cast
        ring
      · rw [hk]
        have hknn : (0 : ℚ) ≤ (k : ℚ) := by positivity
        linarith
      · exact hnn (by linarith)
    · rw [if_neg hr]
      exact ⟨hint, le_rfl, hf0, hf1⟩

end Nowcast

namespace Nowcast

/-- C4 witness: a tick from value 3, fraction one half, seeded, with rate 1,
elapsed 2 seconds, jitter 1. -/
theorem claimC4_witness :
    (∃ n : ℕ, (Counter.tick 5 1 2 1 ⟨3, 1 / 2, true⟩).value = n)
    ∧ (3 : ℚ) ≤ (Counter.tick 5 1 2 1 ⟨3, 1 / 2, true⟩).value
    ∧ 0 ≤ (Counter.tick 5 1 2 1 ⟨3, 1 / 2, true⟩).fraction
    ∧ (Counter.tick 5 1 2 1 ⟨3, 1 / 2, true⟩).fraction < 1 :=
  claimC4_tick_invariant 5 1 2 1 ⟨3, 1 / 2, true⟩ (by norm_num) (by norm_num)
    (by norm_num) (by norm_num) (by norm_num) (by norm_num) ⟨3, by norm_num⟩
    (by simp)

/-- A tick on which neither the seeding condition nor a positive rate applies is
the identity. -/
theorem tick_stale (historicalMid : ℤ) (rate elapsed jitter : ℚ)
    (st : CounterState)
    (hni : ¬ (st.initialized = false ∧ historicalMid > 0)) (hr : ¬ rate > 0) :
    Counter.tick historicalMid rate elapsed jitter st = st := by
  unfold Counter.tick
  rw [if_neg hni]
  dsimp only
  rw [if_neg hr]

/-- With elapsed time 0, a tick that cannot seed and whose fraction is below one
is the identity. -/
theorem tick_zero_of (historicalMid : ℤ) (rate jitter : ℚ) (st : CounterState)
    (hf : st.fraction < 1) (hni : ¬ (st.initialized = false ∧ historicalMid > 0)) :
    Counter.tick historicalMid rate 0 jitter st = st := by
  unfold Counter.tick
  rw [if_neg hni]
  dsimp only
  by_cases hr : rate > 0
  · rw [if_pos hr]
    have h0 : st.fraction + rate * 0 * jitter = st.fraction := by ring
    rw [h0, drainLoop, dif_neg (not_le.mpr hf)]
  · rw [if_neg hr]

/-- With a positive rate, a tick always leaves the fraction below one. -/
theorem tick_fraction_lt (historicalMid : ℤ) (rate elapsed jitter : ℚ)
    (st : CounterState) (hr : rate > 0) :
    (Counter.tick historicalMid rate elapsed jitter st).fraction < 1 := by
  unfold Counter.tick
  dsimp only
  rw [if_pos hr]
  exact (drainLoop_spec _ _).2.1

/-- C9 counterexample: on the uninitialized start state with a positive historical
total available, `tick(0)` seeds the counter and changes the value from 0 to 5. -/
theorem claimC9_counterexample :
    (Counter.tick 5 1 0 1 ⟨0, 0, false⟩).value = 5 ∧ (5 : ℚ) ≠ 0 := by
  constructor
  · unfold Counter.tick Counter.seed
    norm_num
    rw [drainLoop, dif_neg (by norm_num : ¬ (1 : ℚ) ≤ (0 : ℚ))]
  · norm_num

/-- C9 (amended).  `tick(0)` is idempotent — a second zero-elapsed tick after a
first one changes nothing, for every state, rate and historical total — and it is
a no-op (any number of times) on every state whose fraction is below one that the
seeding branch cannot fire on: a state already initialized, or no positive
historical total available.  (The one exception to the original claim is the
seeding tick itself, shown in the counterexample.) -/
theorem claimC9_tick_zero_idempotent :
    (∀ (historicalMid : ℤ) (rate jitter : ℚ) (st : CounterState),
      Counter.tick historicalMid rate 0 jitter
          (Counter.tick historicalMid rate 0 jitter st)
        = Counter.tick historicalMid rate 0 jitter st)
    ∧ (∀ (historicalMid : ℤ) (rate jitter : ℚ) (st : CounterState) (n : ℕ),
        st.fraction < 1 → ¬ (st.initialized = false ∧ historicalMid > 0) →
        (fun s => Counter.tick historicalMid rate 0 jitter s)^[n] st = st) := by
  constructor
  · intro h r j st
    by_cases hr : r > 0
    · have h1 : (Counter.tick h r 0 j st).fraction < 1 := tick_fraction_lt h r 0 j st hr
      have h2 : ¬ ((Counter.tick h r 0 j st).initialized = false ∧ h > 0) := by
        by_cases hc : st.initialized = false ∧ h > 0
        · have htrue : (Counter.tick h r 0 j st).initialized = true := by
            unfold Counter.tick Counter.seed
            rw [if_pos hc, if_pos hc.2]
            dsimp only
            rw [if_pos hr]
          rw [htrue]
          rintro ⟨hcc, -⟩
          cases hcc
        · have heq : (Counter.tick h r 0 j st).initialized = st.initialized := by
            unfold Counter.tick
            rw [if_neg hc]
            dsimp only
            rw [if_pos hr]
          rw [heq]
          exact hc
      exact tick_zero_of h r j _ h1 h2
    · by_cases hc : st.initialized = false ∧ h > 0
      · have hfst : Counter.tick h r 0 j st = Counter.seed h st := by
          unfold Counter.tick
          rw [if_pos hc]
          dsimp only
          rw [if_neg hr]
        have hinit_true : (Counter.seed h st).initialized = true := by
          unfold Counter.seed
          rw [if_pos hc.2]
        have hnc : ¬ ((Counter.seed h st).initialized = false ∧ h > 0) := by
          rw [hinit_true]
          rintro ⟨hcc, -⟩
          cases hcc
        rw [hfst]
        exact tick_stale h r 0 j (Counter.seed h st) hnc hr
      · have hfst : Counter.tick h r 0 j st = st := tick_stale h r 0 j st hc hr
        rw [hfst, hfst]
  · intro h r j st n hf hni
    induction n with
    | zero => rfl
    | succ n ih =>
      rw [Function.iterate_succ_apply, tick_zero_of h r j st hf hni, ih]

/-- C9 witness: three zero-elapsed ticks on a seeded state change nothing. -/
theorem claimC9_witness :
    (fun s => Counter.tick 5 2 0 1 s)^[3] ⟨7, 1 / 2, true⟩
      = (⟨7, 1 / 2, true⟩ : CounterState) :=
  claimC9_tick_zero_idempotent.2 5 2 1 ⟨7, 1 / 2, true⟩ 3 (by norm_num) (by simp)

end Nowcast

namespace Nowcast

/-- Recomputation never touches the fetched series, only `calculated`. -/
theorem calculateAIDisplacement_fred (now : ℤ) (live : LiveData) :
    (calculateAIDisplacement now live).fred = live.fred := by
  unfold calculateAIDisplacement
  dsimp only
  split <;> rfl

/-- C6.  If the overall total is zero or unavailable, recomputation returns the
state unchanged: every previously computed rate field (`aiLow`, `aiMid`, `aiHigh`,
the per-day and per-second rates, and the historical totals) keeps its previous
value, with no reset to zero. -/
theorem claimC6_zero_total_keeps_rates (now : ℤ) (live : LiveData)
    (h : ((live.fred.entries SeriesKey.total).value).getD 0 = 0) :
    calculateAIDisplacement now live = live := by
  unfold calculateAIDisplacement
  dsimp only
  rw [h, if_pos rfl]

/-- C6 witness: recomputation on a store with an unavailable total and visibly
nonzero previous rates. -/
theorem claimC6_witness :
    ((liveNoTotal.fred.entries SeriesKey.total).value).getD 0 = 0
    ∧ calculateAIDisplacement 0 liveNoTotal = liveNoTotal :=
  ⟨rfl, claimC6_zero_total_keeps_rates 0 liveNoTotal rfl⟩

/-- C2 counterexample: a refresh in which the `total` fetch fails replaces the
previously stored good value `some 100` with `none`. -/
theorem claimC2_counterexample :
    (liveGood.fred.entries SeriesKey.total).value = some 100
    ∧ (((fetchAllData 0 liveGood resultsFailTotal).1).fred.entries
        SeriesKey.total).value = none := by
  constructor
  · rfl
  · unfold fetchAllData
    dsimp only
    rw [calculateAIDisplacement_fred]
    rfl

/-- C2 (amended).  If fetching a single series fails, that series' stored entry is
overwritten — value and date become null, the error is recorded — rather than
retained; the failure never fails the whole refresh: every successfully fetched
series is still stored, and the refresh completes, reporting partial failure by
returning `false`. -/
theorem claimC2_failure_isolated (now : ℤ) (live : LiveData)
    (results : SeriesKey → FetchResult) (k : SeriesKey) (m : String)
    (h : results k = .err m) :
    (((fetchAllData now live results).1).fred.entries k).value = none
    ∧ (((fetchAllData now live results).1).fred.entries k).error = some m
    ∧ (∀ k2 r, results k2 = .ok r →
        (((fetchAllData now live results).1).fred.entries k2).value = some r.latest)
    ∧ (fetchAllData now live results).2 = false := by
  unfold fetchAllData
  dsimp only
  rw [calculateAIDisplacement_fred]
  refine ⟨?_, ?_, ?_, ?_⟩
  · dsimp only
    rw [h]
    rfl
  · dsimp only
    rw [h]
    rfl
  · intro k2 r h2
    dsimp only
    rw [h2]
    rfl
  · have hkmem : k ∈ seriesKeys := by cases k <;> simp [seriesKeys]
    have hmem : (seriesName k ++ ": " ++ m) ∈ seriesKeys.filterMap fun k2 =>
        match results k2 with
        | .err m2 => some (seriesName k2 ++ ": " ++ m2)
        | .ok _ => none := by
      apply List.mem_filterMap.mpr
      refine ⟨k, hkmem, ?_⟩
      rw [h]
    simp only [List.isEmpty_eq_false_iff_exists_mem]
    exact ⟨_, hmem⟩

/-- C2 witness: the amended statement applied to the failing-total refresh. -/
theorem claimC2_witness :
    resultsFailTotal SeriesKey.total = .err "HTTP 500"
    ∧ ((((fetchAllData 0 liveGood resultsFailTotal).1).fred.entries
          SeriesKey.total).value = none
      ∧ (((fetchAllData 0 liveGood resultsFailTotal).1).fred.entries
          SeriesKey.total).error = some "HTTP 500"
      ∧ (∀ k2 r, resultsFailTotal k2 = .ok r →
          (((fetchAllData 0 liveGood resultsFailTotal).1).fred.entries k2).value
            = some r.latest)
      ∧ (fetchAllData 0 liveGood resultsFailTotal).2 = false) :=
  ⟨rfl, claimC2_failure_isolated 0 liveGood resultsFailTotal SeriesKey.total
    "HTTP 500" rfl⟩

end Nowcast

namespace Displacement

/-- C3.  For every roster and target total `T`, given a positive total raw score,
the attributed amounts sum to `T` up to a rounding error of at most one unit per
scored entity. -/
theorem claimC3_sum_within_rounding (lg : ℚ → ℚ) (companies : List Company) (T : ℚ)
    (hpos : 0 < totalRawScore lg companies) :
    |((calculateDisplacementScores lg companies T).map
        (fun r => (r.entry.displacement : ℚ))).sum - T|
      ≤ ((calculateDisplacementScores lg companies T).length : ℚ) := by
  have hperm := perm_map_entry lg companies T (fun x => (x.displacement : ℚ))
  rw [hperm.sum_eq]
  unfold normalizedCompanies
  rw [List.map_map]
  have hcomp : ((fun x : NormalizedCompany => (x.displacement : ℚ))
      ∘ normalizeCompany T (totalRawScore lg companies))
      = fun s : ScoredCompany =>
          ((jsRound (T * (s.rawScore / totalRawScore lg companies)) : ℤ) : ℚ) := by
    funext s
    simp only [Function.comp, normalizeCompany]
    rw [if_pos hpos]
  rw [hcomp]
  have hmm : ((scoredCompanies lg companies).map
      (fun s => ((jsRound (T * (s.rawScore / totalRawScore lg companies)) : ℤ) : ℚ)))
      = (((scoredCompanies lg companies).map
          (fun s => s.rawScore / totalRawScore lg companies)).map
          (fun q => ((jsRound (T * q) : ℤ) : ℚ))) := by
    rw [List.map_map]
    rfl
  rw [hmm]
  have hsum1 : ((scoredCompanies lg companies).map
      (fun s => s.rawScore / totalRawScore lg companies)).sum = 1 := by
    have h1 : ((scoredCompanies lg companies).map
        (fun s => s.rawScore / totalRawScore lg companies))
        = (((scoredCompanies lg companies).map (fun s => s.rawScore)).map
            (fun x => x / totalRawScore lg companies)) := by
      rw [List.map_map]
      rfl
    rw [h1, list_sum_map_div]
    exact div_self (ne_of_gt hpos)
  have hbound := roundSum_abs_le T ((scoredCompanies lg companies).map
    (fun s => s.rawScore / totalRawScore lg companies))
  rw [hsum1, mul_one] at hbound
  refine le_trans hbound ?_
  rw [List.length_map, ← length_calculateDisplacementScores_eq_scored lg companies T]
  have hx : (0 : ℚ) ≤ ((calculateDisplacementScores lg companies T).length : ℚ) := by
    positivity
  linarith

/-- C3 witness: one fully scored company, total 1000: the sum is exactly 1000 and
the bound is 1. -/
theorem claimC3_witness :
    0 < totalRawScore lgOne [cFull]
    ∧ |((calculateDisplacementScores lgOne [cFull] 1000).map
        (fun r => (r.entry.displacement : ℚ))).sum - 1000|
      ≤ ((calculateDisplacementScores lgOne [cFull] 1000).length : ℚ) := by
  have hscore : scoreCompany lgOne [cFull] cFull
      = some ⟨cFull, ⟨1 / 5, 1, 1, 1, 1, 1⟩, 1 / 5⟩ := by
    norm_num [scoreCompany, cFull, lgOne, DISPLACEMENT_CATEGORIES,
      DISPLACEMENT_TYPE_MULT, ENTERPRISE_MULT, List.filter_cons]
    exact calculateDeploymentMaturity_eraStart _ rfl
  have hpos : 0 < totalRawScore lgOne [cFull] := by
    unfold totalRawScore scoredCompanies
    rw [List.filterMap_cons]
    simp only [hscore, List.filterMap_nil]
    norm_num
  exact ⟨hpos, claimC3_sum_within_rounding lgOne [cFull] 1000 hpos⟩

end Displacement

namespace Displacement

/-- C7.  An entity with no launch date has deployment-maturity factor 0; if its
category is known it still appears in the result, with recorded maturity factor 0
and attributed amount 0; and the result still scores every known-category entity
of the roster. -/
theorem claimC7_null_launch_zero (lg : ℚ → ℚ) (companies : List Company) (T : ℚ)
    (c : Company) (hc : c ∈ companies) (hnull : c.productLaunch = none) :
    calculateDeploymentMaturity c = 0
    ∧ ((DISPLACEMENT_CATEGORIES c.category).isSome →
        ∃ r ∈ calculateDisplacementScores lg companies T,
          r.entry.name = c.name ∧ r.entry.rawFactors.deploymentMaturity = 0
          ∧ r.entry.displacement = 0)
    ∧ (calculateDisplacementScores lg companies T).length
        = (companies.filter
            (fun x => (DISPLACEMENT_CATEGORIES x.category).isSome)).length := by
  have hmat0 : calculateDeploymentMaturity c = 0 := by
    simp [calculateDeploymentMaturity, hnull]
  refine ⟨hmat0, ?_, length_calculateDisplacementScores lg companies T⟩
  intro hsome
  obtain ⟨s, hs⟩ := Option.isSome_iff_exists.mp
    ((scoreCompany_isSome lg companies c).symm ▸ hsome)
  have hcomp : s.company = c ∧ s.factors.deploymentMaturity = 0 ∧ s.rawScore = 0 := by
    obtain ⟨alloc, halloc⟩ := Option.isSome_iff_exists.mp hsome
    unfold scoreCompany at hs
    rw [halloc] at hs
    dsimp only at hs
    have hxs := Option.some.inj hs
    subst hxs
    refine ⟨rfl, hmat0, ?_⟩
    dsimp only
    rw [hmat0]
    ring
  have hmem : s ∈ scoredCompanies lg companies := by
    unfold scoredCompanies
    exact List.mem_filterMap.mpr ⟨c, hc, hs⟩
  have hnorm : normalizeCompany T (totalRawScore lg companies) s
      ∈ normalizedCompanies lg companies T := by
    unfold normalizedCompanies
    exact List.mem_map_of_mem _ hmem
  have hsorted : normalizeCompany T (totalRawScore lg companies) s
      ∈ sortedCompanies lg companies T := by
    unfold sortedCompanies
    exact List.mem_mergeSort.mpr hnorm
  obtain ⟨r, hr, hre⟩ := mem_addRanks hsorted
  refine ⟨r, hr, ?_, ?_, ?_⟩
  · rw [hre]
    unfold normalizeCompany
    dsimp only
    rw [hcomp.1]
  · rw [hre]
    unfold normalizeCompany
    dsimp only
    exact hcomp.2.1
  · rw [hre]
    unfold normalizeCompany
    dsimp only
    rw [hcomp.2.2]
    have hpct : (if totalRawScore lg companies > 0
        then (0 : ℚ) / totalRawScore lg companies else 0) = 0 := by
      split <;> simp
    rw [hpct, mul_zero]
    unfold jsRound
    norm_num

/-- C7 witness: a one-company roster whose entry has no launch date. -/
theorem claimC7_witness :
    calculateDeploymentMaturity cNoLaunch = 0
    ∧ ((DISPLACEMENT_CATEGORIES cNoLaunch.category).isSome →
        ∃ r ∈ calculateDisplacementScores lgOne [cNoLaunch] 1000,
          r.entry.name = cNoLaunch.name ∧ r.entry.rawFactors.deploymentMaturity = 0
          ∧ r.entry.displacement = 0)
    ∧ (calculateDisplacementScores lgOne [cNoLaunch] 1000).length
        = ([cNoLaunch].filter
            (fun x => (DISPLACEMENT_CATEGORIES x.category).isSome)).length :=
  claimC7_null_launch_zero lgOne [cNoLaunch] 1000 cNoLaunch (by simp) rfl

end Displacement

namespace Displacement

/-- Ranking keeps the length. -/
theorem addRanks_length (l : List NormalizedCompany) : (addRanks l).length = l.length := by
  unfold addRanks
  rw [List.length_map, List.enum_length]

/-- C8.  The result is sorted in descending order of attributed amount, its ranks
are exactly `1, 2, …, n`, and entries with equal attributed amounts appear in
their input (normalized) order — the sort is stable. -/
theorem claimC8_sorted_ranked_stable (lg : ℚ → ℚ) (companies : List Company) (T : ℚ) :
    ((calculateDisplacementScores lg companies T).Pairwise
      (fun a b => b.entry.displacement ≤ a.entry.displacement))
    ∧ (calculateDisplacementScores lg companies T).map (fun r => r.rank)
        = List.range' 1 (calculateDisplacementScores lg companies T).length
    ∧ ∀ d : ℤ,
        (sortedCompanies lg companies T).filter (fun x => x.displacement == d)
          = (normalizedCompanies lg companies T).filter
              (fun x => x.displacement == d) := by
  have htrans : ∀ a b c : NormalizedCompany, displacementLE a b → displacementLE b c →
      displacementLE a c := by
    intro a b c hab hbc
    simp only [displacementLE, decide_eq_true_eq] at *
    omega
  have htotal : ∀ a b : NormalizedCompany,
      displacementLE a b || displacementLE b a := by
    intro a b
    simp only [displacementLE, Bool.or_eq_true, decide_eq_true_eq]
    omega
  refine ⟨?_, ?_, ?_⟩
  · have hs := List.sorted_mergeSort htrans htotal (normalizedCompanies lg companies T)
    have hs2 : (sortedCompanies lg companies T).Pairwise
        (fun a b => b.displacement ≤ a.displacement) := by
      refine List.Pairwise.imp ?_ hs
      intro a b hab
      simpa [displacementLE, decide_eq_true_eq] using hab
    have h3 : ((calculateDisplacementScores lg companies T).map
        (fun r => r.entry)).Pairwise
        (fun a b => b.displacement ≤ a.displacement) := by
      rw [show calculateDisplacementScores lg companies T
          = addRanks (sortedCompanies lg companies T) from rfl, addRanks_map_entry]
      exact hs2
    rw [List.pairwise_map] at h3
    exact h3
  · unfold calculateDisplacementScores
    rw [addRanks_map_rank, addRanks_length]
  · intro d
    unfold sortedCompanies
    apply filter_mergeSort_eq displacementLE _ htrans htotal
    intro a b ha hb
    simp only [beq_iff_eq] at ha hb
    simp only [displacementLE, decide_eq_true_eq, ha, hb]
    exact le_refl d

end Displacement

namespace Displacement

/-- An unknown displacement type has no table entry. -/
theorem DISPLACEMENT_TYPE_MULT_unknown (t : String)
    (h : t ∉ (["direct", "augmentation", "infrastructure"] : List String)) :
    DISPLACEMENT_TYPE_MULT t = none := by
  unfold DISPLACEMENT_TYPE_MULT
  split <;> simp_all

/-- An unknown enterprise level has no table entry. -/
theorem ENTERPRISE_MULT_unknown (t : String)
    (h : t ∉ (["enterprise", "prosumer", "consumer"] : List String)) :
    ENTERPRISE_MULT t = none := by
  unfold ENTERPRISE_MULT
  split <;> simp_all

/-- C10.  A known-category entity whose `displacementType` or `enterpriseLevel` is
outside the fixed tables is not excluded: it is silently scored with the default
multipliers 0.5 (type) and 0.6 (tier) — and such an entity can indeed receive a
positive attributed amount, as the concrete one-company roster shows. -/
theorem claimC10_unknown_type_tier_defaults (lg : ℚ → ℚ) (companies : List Company)
    (c : Company) (hcat : (DISPLACEMENT_CATEGORIES c.category).isSome)
    (htype : c.displacementType ∉ (["direct", "augmentation", "infrastructure"] : List String))
    (htier : c.enterpriseLevel ∉ (["enterprise", "prosumer", "consumer"] : List String)) :
    (∃ s, scoreCompany lg companies c = some s
      ∧ s.factors.displacementTypeMult = 0.5 ∧ s.factors.enterpriseFactor = 0.6)
    ∧ ∃ r ∈ calculateDisplacementScores lgOne [cUnknownType] 1000,
        r.entry.displacement > 0 := by
  constructor
  · obtain ⟨alloc, halloc⟩ := Option.isSome_iff_exists.mp hcat
    obtain ⟨s, hs⟩ := Option.isSome_iff_exists.mp
      ((scoreCompany_isSome lg companies c).symm ▸ hcat)
    refine ⟨s, hs, ?_⟩
    unfold scoreCompany at hs
    rw [halloc] at hs
    dsimp only at hs
    have hxs := Option.some.inj hs
    subst hxs
    constructor
    · dsimp only
      rw [DISPLACEMENT_TYPE_MULT_unknown _ htype]
      rfl
    · dsimp only
      rw [ENTERPRISE_MULT_unknown _ htier]
      rfl
  · have hscore : scoreCompany lgOne [cUnknownType] cUnknownType
        = some ⟨cUnknownType, ⟨1 / 5, 1, 1, 1 / 2, 1, 3 / 5⟩, 3 / 50⟩ := by
      have ht : DISPLACEMENT_TYPE_MULT "agentic" = none := rfl
      have he : ENTERPRISE_MULT "smb" = none := rfl
      have hmat : calculateDeploymentMaturity
          ⟨"NovelCo", 9, "coding", some AI_ERA_START, "agentic", 1, "smb"⟩ = 1 :=
        calculateDeploymentMaturity_eraStart _ rfl
      norm_num [scoreCompany, cUnknownType, lgOne, DISPLACEMENT_CATEGORIES,
        ht, he, hmat, List.filter_cons]
    rw [calculateDisplacementScores_singleton lgOne cUnknownType 1000 _ hscore]
    refine ⟨_, List.mem_cons_self _ _, ?_⟩
    norm_num [normalizeCompany, jsRound]

/-- C10 witness: the unknown-multiplier entity `NovelCo` (type `agentic`, tier
`smb`, category `coding`). -/
theorem claimC10_witness :
    ((∃ s, scoreCompany lgOne [cUnknownType] cUnknownType = some s
      ∧ s.factors.displacementTypeMult = 0.5 ∧ s.factors.enterpriseFactor = 0.6)
    ∧ ∃ r ∈ calculateDisplacementScores lgOne [cUnknownType] 1000,
        r.entry.displacement > 0) :=
  claimC10_unknown_type_tier_defaults lgOne [cUnknownType] cUnknownType rfl
    (by decide) (by decide)

end Displacement
